import Mathlib

/-!
Verification development for the BRLibToHelp parsing engine and symbol
cross-reference resolver.

The definitions below are a shallow embedding of the Python sources:
  * `src/parser.py`   — type-expression parsing (`Parser.parse_type`,
    `Parser.parse_array_dimension`), variable-section parsing
    (`Parser.parse_variable_section`), the function / function-block /
    structure / enumeration declaration parsing, and the `.fun` file block
    splitter (`LibraryDeclarationFileParser`);
  * `src/datatypes.py` — the data model (`BasicType`, `ArrayType`,
    `StringType`, `RangeType`, `Variable`, `FunctionBlock`, `Function`,
    `Structure`, `Enumeration`, `Library`) and the `__str__` renderers;
  * `src/libraryToChm.py` — the constant-reference resolver
    (`LibraryDeclarationToChm.link_constants_in_text`);
  * `src/core.py` — the metadata step of `LibraryProcessor.process`.

Python exceptions are modelled with `Option` (`none` = the Python code
raised).  Python regular expressions are embedded as hand-written matchers
that reproduce the exact backtracking behaviour of the patterns in the
source (all patterns are concrete literals, so this is a finite, mechanical
translation; each matcher's doc comment cites the regex it implements).
Text is modelled as `List Char`; the character classes `\s`, `\w` and
`str.isdigit` are modelled over ASCII, which covers the declaration files
the tool consumes.
-/

/-! ## Character classes and string helpers (Python `\s`, `\w`, `str` methods) -/

/-- Python regex `\s` (ASCII range): space, tab, newline, CR, vertical tab, form feed. -/
def wsChar (c : Char) : Bool :=
  c = ' ' || c = '\t' || c = '\n' || c = '\r' || c = Char.ofNat 11 || c = Char.ofNat 12

/-- Python regex `\w` (ASCII range): letters, digits, underscore. -/
def wordChar (c : Char) : Bool :=
  c.isAlpha || c.isDigit || c = '_'

/-- Python `str.isdigit` (ASCII range): nonempty and all decimal digits. -/
def pyIsDigit (s : String) : Bool :=
  !s.data.isEmpty && s.data.all Char.isDigit

/-- Python `int(...)` on a string of decimal digits. -/
def strToNat (s : String) : Nat :=
  s.data.foldl (fun acc c => acc * 10 + (c.toNat - 48)) 0

/-- Python `str.strip()` (ASCII whitespace): drop leading and trailing whitespace. -/
def pyStrip (s : String) : String :=
  String.mk (((s.data.dropWhile wsChar).reverse.dropWhile wsChar).reverse)

/-- Python `needle in hay` (substring containment). -/
def strContainsAux (needle : List Char) : List Char → Bool
  | [] => needle.isEmpty
  | c :: rest => (needle.isPrefixOf (c :: rest)) || strContainsAux needle rest

/-- Python `needle in hay` on strings. -/
def strContains (hay needle : String) : Bool :=
  needle.data.isEmpty || strContainsAux needle.data hay.data

/-- Python `str.upper()` (ASCII). -/
def pyUpper (s : String) : String :=
  String.mk (s.data.map Char.toUpper)

/-- The Python idiom `x.strip() if x else None`: an absent or empty capture
becomes `None`, anything else is stripped. -/
def pyStripOrNone : Option String → Option String
  | none => none
  | some c => if c.data.isEmpty then none else some (pyStrip c)

/-- Python `str.split(sep)` with a nonempty separator: split on non-overlapping
leftmost occurrences of `sep`.  `fuel` bounds the recursion (the text length
suffices because each step discards at least one character). -/
def pySplitAux (sep : List Char) (t : List Char) : Nat → List (List Char)
  | 0 => [t]
  | fuel + 1 =>
    match (List.range (t.length + 1)).find? (fun i => sep.isPrefixOf (t.drop i)) with
    | none => [t]
    | some i => t.take i :: pySplitAux sep (t.drop (i + sep.length)) fuel

/-- Python `s.split(sep)` for a nonempty `sep`. -/
def pySplit (s sep : String) : List String :=
  (pySplitAux sep.data s.data (s.data.length + 1)).map String.mk

/-! ## Positional matching primitives over `List Char` -/

/-- The literal `lit` occurs in `t` starting at index `i`. -/
def litAt (t : List Char) (i : Nat) (lit : List Char) : Bool :=
  lit.isPrefixOf (t.drop i)

/-- Character of `t` at index `i`, if any. -/
def charAt (t : List Char) (i : Nat) : Option Char :=
  (t.drop i).head?

/-- Index after the maximal run of whitespace starting at `i` (regex `\s*`, greedy). -/
def skipWs (t : List Char) (i : Nat) : Nat :=
  i + ((t.drop i).takeWhile wsChar).length

/-- Length of the maximal run of `\w` characters starting at `i` (regex `\w+`/`\w*`, greedy). -/
def wordRunAt (t : List Char) (i : Nat) : Nat :=
  ((t.drop i).takeWhile wordChar).length

/-- Length of the maximal run of characters satisfying `p` starting at `i`. -/
def runAt (p : Char → Bool) (t : List Char) (i : Nat) : Nat :=
  ((t.drop i).takeWhile p).length

/-- The Python slice `t[a:b]` as a `String`. -/
def sliceStr (t : List Char) (a b : Nat) : String :=
  String.mk ((t.drop a).take (b - a))

/-- First index `i` with `a ≤ i` at which the literal `lit` occurs in `t`. -/
def findLitFrom (t : List Char) (lit : List Char) (a : Nat) : Option Nat :=
  (List.range (t.length + 1)).find? (fun i => a ≤ i && litAt t i lit)

/-- Walk back over whitespace: the least `k` with `lo ≤ k ≤ m` such that
`t[k:m]` is all whitespace (used for a greedy `\s*` that precedes a literal
whose position `m` is already fixed). -/
def backWs (t : List Char) (lo m : Nat) : Nat :=
  m - min (m - lo) (((t.take m).reverse.takeWhile wsChar).length)

/-- Generic port of `re.finditer` scanning: try `step` at every index from `i`;
on a match emit it and resume at the match's end (at least one past the
attempt position, as the `re` module does for zero-width matches). -/
def pyScanAux {α : Type} (n : Nat) (step : Nat → Option (α × Nat)) (i : Nat) : Nat → List α
  | 0 => []
  | fuel + 1 =>
    if i > n then []
    else
      match step i with
      | some (a, j) => a :: pyScanAux n step (max j (i + 1)) fuel
      | none => pyScanAux n step (i + 1) fuel

/-- Run a finditer-style scan over positions `0 .. n` of a text of length `n`. -/
def pyScan {α : Type} (n : Nat) (step : Nat → Option (α × Nat)) : List α :=
  pyScanAux n step 0 (n + 1)

/-! ## Data model (src/datatypes.py) -/

/-- A bound / length field: either an integer literal or a symbolic name
(the Python code stores `Union[int, str]`). -/
inductive BoundVal where
  | int (n : Nat)
  | str (s : String)
deriving Repr, DecidableEq

/-- Model of `ArrayDimension` (src/datatypes.py lines 26-39). -/
structure ArrayDimension where
  lower_bound : BoundVal
  upper_bound : BoundVal
  is_constant_lower : Bool
  is_constant_upper : Bool
deriving Repr, DecidableEq

/-- The closed union of type values the tool manipulates:
`BasicType`, `ArrayType`, `StringType`, `RangeType` (src/datatypes.py).
`RangeType` is part of the data model even though, as proved below, the
type-expression parser never produces it. -/
inductive BRType where
  | basic (type : String)
  | array (base_type : String) (dimensions : List ArrayDimension)
  | string (length : BoundVal) (is_constant : Bool)
  | range (base_type : String) (lower_bound upper_bound : BoundVal)
      (is_constant_lower is_constant_upper : Bool)
deriving Repr, DecidableEq

/-- Rendering of a bound: Python f-string interpolation of `Union[int, str]`. -/
def renderBound : BoundVal → String
  | .int n => toString n
  | .str s => s

/-- The `__str__` renderers of src/datatypes.py.
`ArrayType.__str__` builds `f"{base}["`, appends `f"{lb}..{ub},"` per
dimension, deletes the last character, and appends `"]"`. -/
def renderType : BRType → String
  | .basic ty => ty
  | .array base dims =>
    let s := dims.foldl
      (fun acc d => acc ++ renderBound d.lower_bound ++ ".." ++ renderBound d.upper_bound ++ ",")
      (base ++ "[")
    String.mk s.data.dropLast ++ "]"
  | .string len _ => "STRING[" ++ renderBound len ++ "]"
  | .range base lb ub _ _ => base ++ "(" ++ renderBound lb ++ ".." ++ renderBound ub ++ ")"

/-! ## Type-expression parsing (src/parser.py lines 32-71) -/

/-- Model of `Parser.parse_array_dimension` (src/parser.py lines 32-46):
`lower, upper = dim_str.split('..')` (a `ValueError` — here `none` — unless
the split yields exactly two parts), then each bound is an `int` when the
token `isdigit()`, otherwise the stripped token with its constant flag set. -/
def parse_array_dimension (dim_str : String) : Option ArrayDimension :=
  match pySplit dim_str ".." with
  | [lower, upper] =>
    some
      { lower_bound := if pyIsDigit lower then .int (strToNat lower) else .str (pyStrip lower)
        upper_bound := if pyIsDigit upper then .int (strToNat upper) else .str (pyStrip upper)
        is_constant_lower := !pyIsDigit lower
        is_constant_upper := !pyIsDigit upper }
  | _ => none

/-- Tail of the array pattern after the `]`: `\s*OF\s*(\w+)` — skip whitespace,
the literal `OF`, whitespace, then a nonempty greedy `\w+` run. -/
def arrayTailOf (rest : List Char) : Option (List Char) :=
  let p := skipWs rest 0
  if litAt rest p ['O', 'F'] then
    let q := skipWs rest (p + 2)
    let n := wordRunAt rest q
    if n = 0 then none else some ((rest.drop q).take n)
  else none

/-- The `(.*?)\]\s*OF\s*(\w+)` part of the array pattern (compiled without
`re.DOTALL`, so `.` excludes newlines): the lazy group tries each `]` in
order, and on failure of the tail it extends past that `]`.  Structural
recursion over the remaining text; `acc` holds the group's characters in
reverse. -/
def arrayDimsScan : List Char → List Char → Option (List Char × List Char)
  | [], _ => none
  | c :: rest, acc =>
    if c = '\n' then none
    else if c = ']' then
      match arrayTailOf rest with
      | some base => some (acc.reverse, base)
      | none => arrayDimsScan rest (c :: acc)
    else arrayDimsScan rest (c :: acc)

/-- Model of `re.compile(r'ARRAY\s*\[(.*?)\]\s*OF\s*(\w+)').match(type_str)` from
`Parser.parse_type`: anchored at the start, trailing text allowed.  Returns
the two capture groups (dimension list text, base type). -/
def matchArrayType (t : List Char) : Option (List Char × List Char) :=
  if litAt t 0 "ARRAY".data then
    let p := skipWs t 5
    if charAt t p = some '[' then arrayDimsScan (t.drop (p + 1)) [] else none
  else none

/-- Model of `re.compile(r'STRING\s*\[(\w+)\]').match(type_str)` from `Parser.parse_type`:
anchored at the start; the greedy `\w+` run must be followed directly by `]`
(no shorter run can be, since a shorter run leaves a word character where `]`
is required). -/
def matchStringType (t : List Char) : Option (List Char) :=
  if litAt t 0 "STRING".data then
    let p := skipWs t 6
    if charAt t p = some '[' then
      let n := wordRunAt t (p + 1)
      if n = 0 then none
      else if charAt t (p + 1 + n) = some ']' then some ((t.drop (p + 1)).take n)
      else none
    else none
  else none

/-- Model of `Parser.parse_type` (src/parser.py lines 48-71): try the array pattern,
then the string pattern, otherwise return `BasicType(type=type_str)` with the
input string unchanged.  In the array branch the dimension text is split on
`','` and each piece goes through `parse_array_dimension` (whose `ValueError`
propagates: `none`).  In the string branch the captured `\w+` is stripped and
classified with `isdigit()`. -/
def parse_type (type_str : String) : Option BRType :=
  match matchArrayType type_str.data with
  | some (dims, base) =>
    ((pySplit (String.mk dims) ",").mapM parse_array_dimension).map
      (fun ds => BRType.array (String.mk base) ds)
  | none =>
    match matchStringType type_str.data with
    | some w =>
      let ls := pyStrip (String.mk w)
      some (BRType.string (if pyIsDigit ls then .int (strToNat ls) else .str ls) (!pyIsDigit ls))
    | none => some (BRType.basic type_str)

/-- Parse, render the result, and parse again — the round trip of spec §8. -/
def reparseRendered (s : String) : Option BRType :=
  (parse_type s).bind (fun ty => parse_type (renderType ty))

/-! ## Variable sections (src/parser.py lines 73-103)

`Parser.parse_variable_section` runs
`re.compile(r'\s*(\w+)\s*:\s*(\{.*?\}\s*)?(REFERENCE TO )?([\w\s\[\]\.,]+?)`
`(?:\s*:=\s*([\w\.\#\-]+))?\s*;(?:\s*\(\*(.*?)\*\))?(?:\s*\(\*(.*?)\*\))?`
`(?:\s*\(\*(.*?)\*\))?', re.DOTALL).finditer(section)` and builds one
variable per match.  The matcher below reproduces the pattern's backtracking:
the lazy redundancy group retries later `}`s, the optional `REFERENCE TO `
falls back to absent, the lazy type group grows one character at a time, and
the optional default falls back to absent when no value or no semicolon
follows. -/

/-- Opening brace character (kept out of string literals). -/
def lbrace : Char := Char.ofNat 123

/-- Closing brace character (kept out of string literals). -/
def rbrace : Char := Char.ofNat 125

/-- Character class `[\w\s\[\]\.,]` of the lazy type group. -/
def typeChar (c : Char) : Bool :=
  wordChar c || wsChar c || c = '[' || c = ']' || c = '.' || c = ','

/-- Character class `[\w\.\#\-]` of the default-value group. -/
def valChar (c : Char) : Bool :=
  wordChar c || c = '.' || c = '#' || c = '-'

/-- One capture of the variable pattern, before type parsing. -/
structure VarEntry where
  name : String
  redundancy_info : Option String
  is_reference : Bool
  type_str : String
  default_value : Option String
  comment1 : Option String
  comment2 : Option String
  comment3 : Option String
deriving Repr, DecidableEq

/-- Model of `\s*;` at `x`: skip whitespace and require a semicolon; position after it. -/
def veSemi (t : List Char) (x : Nat) : Option Nat :=
  let y := skipWs t x
  if charAt t y = some ';' then some (y + 1) else none

/-- Model of `(?:\s*:=\s*([\w\.\#\-]+))?\s*;` after the type group ends at `e`: the
greedy optional default is tried first; it fails (and the pattern falls back
to no default) when `:=` is absent, the value run is empty, or no semicolon
follows — a shorter value run can never help because the value class is
disjoint from whitespace and `;`. -/
def veFinish (t : List Char) (e : Nat) : Option (Option String × Nat) :=
  let noDefault := (veSemi t e).map (fun p => ((none : Option String), p))
  let q1 := skipWs t e
  if litAt t q1 [':', '='] then
    let q2 := skipWs t (q1 + 2)
    let vlen := runAt valChar t q2
    if vlen = 0 then noDefault
    else
      match veSemi t (q2 + vlen) with
      | some p => some (some (sliceStr t q2 (q2 + vlen)), p)
      | none => noDefault
  else noDefault

/-- One optional comment group `(?:\s*\(\*(.*?)\*\))?`: greedy, capturing up
to the first `*)`; absent (consuming nothing) if `(*` or `*)` is missing. -/
def veComment (t : List Char) (p : Nat) : Option String × Nat :=
  let r := skipWs t p
  if litAt t r ['(', '*'] then
    match findLitFrom t ['*', ')'] (r + 2) with
    | some m => (some (sliceStr t (r + 2) m), m + 2)
    | none => (none, p)
  else (none, p)

/-- The three trailing comment groups, in order. -/
def veComments (t : List Char) (p : Nat) :
    (Option String × Option String × Option String) × Nat :=
  let (c1, p1) := veComment t p
  let (c2, p2) := veComment t p1
  let (c3, p3) := veComment t p2
  ((c1, c2, c3), p3)

/-- The lazy type group `([\w\s\[\]\.,]+?)` starting at `start`, currently
ending at `cur` (`start < cur`, all characters in class): try to finish, else
extend by one class character. -/
def veTypeLoop (t : List Char) (start cur : Nat) : Nat → Option (String × Option String × Nat)
  | 0 => none
  | fuel + 1 =>
    match veFinish t cur with
    | some (dv, p) => some (sliceStr t start cur, dv, p)
    | none =>
      match charAt t cur with
      | some c => if typeChar c then veTypeLoop t start (cur + 1) fuel else none
      | none => none

/-- The type group needs at least one class character. -/
def veType (t : List Char) (q : Nat) : Option (String × Option String × Nat) :=
  match charAt t q with
  | some c => if typeChar c then veTypeLoop t q (q + 1) (t.length + 1) else none
  | none => none

/-- Model of `(REFERENCE TO )?` then the type: the greedy optional reference is tried
first and falls back to absent if the rest of the pattern fails after it. -/
def veRefType (t : List Char) (p : Nat) :
    Option (Bool × String × Option String × Nat) :=
  if litAt t p "REFERENCE TO ".data then
    match veType t (p + 13) with
    | some r => some (true, r)
    | none => (veType t p).map (fun r => (false, r))
  else (veType t p).map (fun r => (false, r))

/-- Backtracking of a greedy `\s*` that precedes the type group: because the
type class contains `\s`, the whitespace run starting at `base` is given back
one character at a time (longest consumption first, so the fallback tries
`base + n - 1`, then `base + n - 2`, down to `base`), each time retrying the
type group there.  At these fallback positions the character is whitespace,
so neither the redundancy `{` nor the `REFERENCE TO ` literal can match —
only the type group is live. -/
def veWsFallback (t : List Char) (base : Nat) :
    Nat → Option (Nat × (String × Option String × Nat))
  | 0 => none
  | n + 1 =>
    match veType t (base + n) with
    | some r => some (base + n, r)
    | none => veWsFallback t base n

/-- The lazy redundancy group `(\{.*?\}\s*)?` when a `{` is present at `p3`:
try each closing `}` in order; for each, the group's trailing greedy `\s*` is
tried longest first (via `veRefType`) and then given back to the type group
one character at a time (`veWsFallback`, the captured group shrinking with
it).  If every `}` fails, the group-absent fallback also fails, because `{`
is not a type-class character. -/
def veRedScan (t : List Char) (p3 k : Nat) :
    Nat → Option (Option String × Bool × String × Option String × Nat)
  | 0 => none
  | fuel + 1 =>
    match findLitFrom t [rbrace] k with
    | some m =>
      match veRefType t (skipWs t (m + 1)) with
      | some r => some (some (sliceStr t p3 (skipWs t (m + 1))), r)
      | none =>
        match veWsFallback t (m + 1) (skipWs t (m + 1) - (m + 1)) with
        | some (pos, r) => some (some (sliceStr t p3 pos), false, r)
        | none => veRedScan t p3 (m + 1) fuel
    | none => none

/-- Everything after `name\s*:` with the colon's trailing `\s*` fully
consumed up to `p3`. -/
def veAfterColon (t : List Char) (p3 : Nat) :
    Option (Option String × Bool × String × Option String × Nat) :=
  if charAt t p3 = some lbrace then veRedScan t p3 (p3 + 1) (t.length + 1)
  else (veRefType t p3).map (fun r => ((none : Option String), r))

/-- One attempt of the full variable pattern anchored at `i`; returns the
captures and the match end.  After the fully-greedy attempt fails, the `\s*`
following the colon is given back to the type group character by character
(`veWsFallback`). -/
def matchVarEntry (t : List Char) (i : Nat) : Option (VarEntry × Nat) :=
  let p0 := skipWs t i
  let nlen := wordRunAt t p0
  if nlen = 0 then none
  else
    let p1 := p0 + nlen
    let p2 := skipWs t p1
    if charAt t p2 = some ':' then
      let attempt :=
        match veAfterColon t (skipWs t (p2 + 1)) with
        | some r => some r
        | none =>
          (veWsFallback t (p2 + 1) (skipWs t (p2 + 1) - (p2 + 1))).map
            (fun r => ((none : Option String), false, r.2))
      match attempt with
      | some (red, ref, tyStr, dv, pAfterSemi) =>
        let ((c1, c2, c3), pEnd) := veComments t pAfterSemi
        some ({ name := sliceStr t p0 p1, redundancy_info := red, is_reference := ref,
                type_str := tyStr, default_value := dv,
                comment1 := c1, comment2 := c2, comment3 := c3 }, pEnd)
      | none => none
    else none

/-- Model of `var_pattern.finditer(section)`: all matches, scanning left to right. -/
def pyFindVarEntries (t : List Char) : List VarEntry :=
  pyScan t.length (fun i => matchVarEntry t i)

/-- Model of `Variable` (src/datatypes.py lines 96-119).  The role subclasses
(`VarInput`, `VarOutput`, `VarInOut`, `Var`, `VarConstant`) add only a
constant `I_O` tag, so the role is modelled by the list a variable is stored
in. -/
structure Variable where
  name : String
  type : BRType
  is_reference : Bool
  redundancy_info : Option String
  comment1 : Option String
  comment2 : Option String
  comment3 : Option String
  default_value : Option String
  retain : Bool
deriving Repr, DecidableEq

/-- Model of `Parser.parse_variable_section` (src/parser.py lines 73-103): one
variable per pattern match, its type from `parse_type` on the stripped type
capture (a `ValueError` there propagates), its `retain` flag the section's
`is_retain` argument. -/
def parse_variable_section (sec : List Char) (is_retain : Bool) : Option (List Variable) :=
  (pyFindVarEntries sec).mapM (fun e =>
    (parse_type (pyStrip e.type_str)).map (fun ty =>
      { name := e.name, type := ty, is_reference := e.is_reference,
        redundancy_info := e.redundancy_info,
        comment1 := e.comment1, comment2 := e.comment2, comment3 := e.comment3,
        default_value := e.default_value.map pyStrip, retain := is_retain }))

/-! ## Function-block and function declarations (src/parser.py lines 106-170) -/

/-- The captured suffix of `VAR(_INPUT|_OUTPUT|_CONSTANT|_IN_OUT)?` in
`FunctionBlockParser.parse`. -/
inductive SectionKind where
  | input
  | output
  | constant
  | inOut
deriving Repr, DecidableEq

/-- One attempt, at `i`, of
`re.compile(r'VAR(_INPUT|_OUTPUT|_CONSTANT|_IN_OUT)?\s*(RETAIN)?\s*(.*?)\s*END_VAR', re.DOTALL)`.
The alternation is tried in source order; with `re.DOTALL` the lazy body ends
at the first `END_VAR` (with the greedy `\s*` peeled off the body's tail).
Choosing a suffix or `RETAIN` can never change overall success, since failure
happens exactly when no `END_VAR` occurs later. -/
def matchVarSection (t : List Char) (i : Nat) :
    Option ((Option SectionKind × Bool × List Char) × Nat) :=
  if litAt t i "VAR".data then
    let j := i + 3
    let (sfx, j1) :=
      if litAt t j "_INPUT".data then (some SectionKind.input, j + 6)
      else if litAt t j "_OUTPUT".data then (some SectionKind.output, j + 7)
      else if litAt t j "_CONSTANT".data then (some SectionKind.constant, j + 9)
      else if litAt t j "_IN_OUT".data then (some SectionKind.inOut, j + 7)
      else ((none : Option SectionKind), j)
    let j2 := skipWs t j1
    let (ret, j3) := if litAt t j2 "RETAIN".data then (true, j2 + 6) else (false, j2)
    let j4 := skipWs t j3
    match findLitFrom t "END_VAR".data j4 with
    | some m => some ((sfx, ret, (t.drop j4).take (backWs t j4 m - j4)), m + 7)
    | none => none
  else none

/-- Model of `var_section_pattern.finditer(content)` of `FunctionBlockParser.parse`. -/
def pyFindVarSections (t : List Char) : List (Option SectionKind × Bool × List Char) :=
  pyScan t.length (fun i => matchVarSection t i)

/-- Model of `FunctionBlock` (src/datatypes.py lines 146-165). -/
structure FunctionBlockR where
  name : String
  description : String
  var_input : List Variable
  var_output : List Variable
  var : List Variable
  var_in_out : List Variable
  var_constant : List Variable
deriving Repr, DecidableEq

/-- Model of `re.compile(r'FUNCTION_BLOCK\s+(\w+)\s*(?:\(\*(.*?)\*\))?', re.DOTALL).search`:
first position with the keyword, at least one whitespace, a name, then an
optional adjoining comment. -/
def searchFBHeader (t : List Char) : Option (String × Option String) :=
  pyScan t.length (fun i =>
    if litAt t i "FUNCTION_BLOCK".data then
      let p := skipWs t (i + 14)
      if p = i + 14 then none
      else
        let nlen := wordRunAt t p
        if nlen = 0 then none
        else
          let q := skipWs t (p + nlen)
          let desc :=
            if litAt t q ['(', '*'] then
              (findLitFrom t ['*', ')'] (q + 2)).map (fun m => sliceStr t (q + 2) m)
            else none
          some ((sliceStr t p (p + nlen), desc), i + 1)
    else none) |>.head?

/-- One section-routing step of `FunctionBlockParser.parse` (src/parser.py
lines 125-137): note that the `_IN_OUT` branch calls `parse_variable_section`
without passing `is_retain` (so those variables get the default
`retain=False`), while every other branch passes the section's flag. -/
def fbSectionStep (fb : FunctionBlockR) :
    Option SectionKind × Bool × List Char → Option FunctionBlockR
  | (some .input, ret, sec) =>
    (parse_variable_section sec ret).map (fun vs => { fb with var_input := fb.var_input ++ vs })
  | (some .output, ret, sec) =>
    (parse_variable_section sec ret).map (fun vs => { fb with var_output := fb.var_output ++ vs })
  | (some .constant, ret, sec) =>
    (parse_variable_section sec ret).map (fun vs =>
      { fb with var_constant := fb.var_constant ++ vs })
  | (some .inOut, _, sec) =>
    (parse_variable_section sec false).map (fun vs =>
      { fb with var_in_out := fb.var_in_out ++ vs })
  | (none, ret, sec) =>
    (parse_variable_section sec ret).map (fun vs => { fb with var := fb.var ++ vs })

/-- Model of `FunctionBlockParser.parse` (src/parser.py lines 106-139): raise (`none`)
when no `FUNCTION_BLOCK` header matches; otherwise start from the header's
name and stripped description (empty when the comment group is absent) and
fold every `VAR ... END_VAR` section through `fbSectionStep`. -/
def fbParse (content : String) : Option FunctionBlockR :=
  match searchFBHeader content.data with
  | none => none
  | some (name, desc) =>
    (pyFindVarSections content.data).foldlM fbSectionStep
      { name := name, description := pyStrip (desc.getD ""),
        var_input := [], var_output := [], var := [], var_in_out := [], var_constant := [] }

/-- Model of `Function` (src/datatypes.py lines 167-184). -/
structure FunctionR where
  name : String
  return_type : String
  description : String
  var_input : List Variable
  var_in_out : List Variable
  var : List Variable
deriving Repr, DecidableEq

/-- Model of `re.compile(r'FUNCTION\s+(\w+)\s*:\s*(\w+)\s*(?:\(\*(.*?)\*\))?', re.DOTALL).search`. -/
def searchFuncHeader (t : List Char) : Option (String × String × Option String) :=
  pyScan t.length (fun i =>
    if litAt t i "FUNCTION".data then
      let p := skipWs t (i + 8)
      if p = i + 8 then none
      else
        let nlen := wordRunAt t p
        if nlen = 0 then none
        else
          let q := skipWs t (p + nlen)
          if charAt t q = some ':' then
            let r := skipWs t (q + 1)
            let rlen := wordRunAt t r
            if rlen = 0 then none
            else
              let s := skipWs t (r + rlen)
              let desc :=
                if litAt t s ['(', '*'] then
                  (findLitFrom t ['*', ')'] (s + 2)).map (fun m => sliceStr t (s + 2) m)
                else none
              some ((sliceStr t p (p + nlen), sliceStr t r (r + rlen), desc), i + 1)
          else none
    else none) |>.head?

/-- The suffix alternation `(_INPUT|_IN_OUT)?` of `FunctionParser.parse`'s
section pattern, tried in source order at position `j`: the captured kind and
the position after it. -/
def varSectionSuffixF (t : List Char) (j : Nat) : Option SectionKind × Nat :=
  if litAt t j "_INPUT".data then (some SectionKind.input, j + 6)
  else if litAt t j "_IN_OUT".data then (some SectionKind.inOut, j + 7)
  else ((none : Option SectionKind), j)

/-- One attempt, at `i`, of
`re.compile(r'VAR(_INPUT|_IN_OUT)?\s*(.*?)\s*END_VAR', re.DOTALL)` from
`FunctionParser.parse` — only two suffixes and no `RETAIN` group. -/
def matchVarSectionF (t : List Char) (i : Nat) :
    Option ((Option SectionKind × List Char) × Nat) :=
  if litAt t i "VAR".data then
    match findLitFrom t "END_VAR".data (skipWs t (varSectionSuffixF t (i + 3)).2) with
    | some m =>
      some (((varSectionSuffixF t (i + 3)).1,
        (t.drop (skipWs t (varSectionSuffixF t (i + 3)).2)).take
          (backWs t (skipWs t (varSectionSuffixF t (i + 3)).2) m
            - skipWs t (varSectionSuffixF t (i + 3)).2)), m + 7)
    | none => none
  else none

/-- Model of `var_section_pattern.finditer(content)` of `FunctionParser.parse`. -/
def pyFindVarSectionsF (t : List Char) : List (Option SectionKind × List Char) :=
  pyScan t.length (fun i => matchVarSectionF t i)

/-- One section-routing step of `FunctionParser.parse` (src/parser.py lines
161-168): `_INPUT` to `var_input`, `_IN_OUT` to `var_in_out`, everything else
(including sections whose `_OUTPUT` or `CONSTANT` text was swallowed into the
body) to `var`; `is_retain` is never passed (default `False`). -/
def funcSectionStep (f : FunctionR) :
    Option SectionKind × List Char → Option FunctionR
  | (some .input, sec) =>
    (parse_variable_section sec false).map (fun vs => { f with var_input := f.var_input ++ vs })
  | (some .inOut, sec) =>
    (parse_variable_section sec false).map (fun vs => { f with var_in_out := f.var_in_out ++ vs })
  | (_, sec) =>
    (parse_variable_section sec false).map (fun vs => { f with var := f.var ++ vs })

/-- Model of `FunctionParser.parse` (src/parser.py lines 141-170). -/
def funcParse (content : String) : Option FunctionR :=
  match searchFuncHeader content.data with
  | none => none
  | some (name, rt, desc) =>
    (pyFindVarSectionsF content.data).foldlM funcSectionStep
      { name := name, return_type := pyStrip rt, description := pyStrip (desc.getD ""),
        var_input := [], var_in_out := [], var := [] }

/-! ## Structure and enumeration declarations (src/parser.py lines 172-269) -/

/-- Model of `Structure` (src/datatypes.py lines 186-190). -/
structure StructureR where
  name : String
  members : List Variable
  description : Option String
deriving Repr, DecidableEq

/-- Model of `EnumLiteral` (src/datatypes.py lines 192-207). -/
structure EnumLiteral where
  name : String
  value : Option String
  comment1 : Option String
  comment2 : Option String
  comment3 : Option String
deriving Repr, DecidableEq

/-- Model of `Enumeration` (src/datatypes.py lines 209-222). -/
structure EnumerationR where
  name : String
  literals : List EnumLiteral
  description : Option String
  default_value : Option String
deriving Repr, DecidableEq

/-- The members part `\s*(.*?)\s*END_STRUCT\s*;` of the structure pattern,
starting at `a` (whitespace already skipped): the lazy group ends before the
first `END_STRUCT` that is followed by `\s*;`; the greedy `\s*` peels
whitespace off the members' tail.  `k` is the search cursor. -/
def structMembersScan (t : List Char) (a k : Nat) : Nat → Option (List Char)
  | 0 => none
  | fuel + 1 =>
    match findLitFrom t "END_STRUCT".data k with
    | some m =>
      let q := skipWs t (m + 10)
      if charAt t q = some ';' then some ((t.drop a).take (backWs t a m - a))
      else structMembersScan t a (m + 1) fuel
    | none => none

/-- One attempt, at `i`, of
`re.compile(r'(\w+)\s*:\s*STRUCT\s*(?:\(\*(.*?)\*\))?\s*(.*?)\s*END_STRUCT\s*;', re.DOTALL)`.
The optional description comment is greedy: it is tried first with each `*)`
in turn, and only if no variant lets the rest match does the pattern fall
back to no comment (the comment text then becomes part of the members). -/
def structDescScan (t : List Char) (p4 k : Nat) :
    Nat → Option (Option String × List Char)
  | 0 => none
  | fuel + 1 =>
    match findLitFrom t ['*', ')'] k with
    | some m =>
      match structMembersScan t (skipWs t (m + 2)) (skipWs t (m + 2)) (t.length + 1) with
      | some members => some (some (sliceStr t p4 m), members)
      | none => structDescScan t p4 (m + 1) fuel
    | none => none

/-- The structure pattern anchored at `i` (see `structDescScan`). -/
def matchStructAt (t : List Char) (i : Nat) : Option (String × Option String × List Char) :=
  let nlen := wordRunAt t i
  if nlen = 0 then none
  else
    let p := skipWs t (i + nlen)
    if charAt t p = some ':' then
      let p2 := skipWs t (p + 1)
      if litAt t p2 "STRUCT".data then
        let p4 := skipWs t (p2 + 6)
        let name := sliceStr t i (i + nlen)
        let withDesc :=
          if litAt t p4 ['(', '*'] then structDescScan t (p4 + 2) (p4 + 2) (t.length + 1)
          else none
        match withDesc with
        | some (desc, members) => some (name, desc, members)
        | none =>
          (structMembersScan t p4 p4 (t.length + 1)).map (fun members => (name, none, members))
      else none
    else none

/-- Model of `struct_pattern.search(content)` of `StructureParser.parse`: first
position where the pattern matches. -/
def searchStruct (t : List Char) : Option (String × Option String × List Char) :=
  pyScan t.length (fun i => (matchStructAt t i).map (fun r => (r, i + 1))) |>.head?

/-- Model of `StructureParser.parse` (src/parser.py lines 172-191): `ValueError`
(`none`) when the pattern does not match; members via
`parse_variable_section` (role `Var`, no retain), whose errors propagate. -/
def structParse (content : String) : Option StructureR :=
  match searchStruct content.data with
  | none => none
  | some (name, desc, members) =>
    (parse_variable_section members false).map (fun vs =>
      { name := name, members := vs, description := pyStripOrNone desc })

/-- The comment-line stripping pass of `EnumerationParser.parse` (src/parser.py
lines 197-220): drop every line that is entirely a block comment, and every
line inside a multi-line comment opened by a line starting with `(*` and
closed by a line ending with `*)`. -/
def stripCommentLines (content : String) : String :=
  let step : (List String × Bool) → String → (List String × Bool) := fun (kept, inC) line =>
    let stripped := pyStrip line
    if "(*".data.isPrefixOf stripped.data && "*)".data.isSuffixOf stripped.data then (kept, inC)
    else if "(*".data.isPrefixOf stripped.data then (kept, true)
    else if "*)".data.isSuffixOf stripped.data && inC then (kept, false)
    else if inC then (kept, inC)
    else (kept ++ [line], inC)
  String.intercalate "\n" ((pySplit content "\n").foldl step ([], false)).1

/-- After the closing `)` of the enumeration pattern:
`(?:\s*:=\s*(\w+))?\s*;` — greedy optional default first, then the fallback
without it; `none` if neither ends in a semicolon. -/
def enumAfterParen (t : List Char) (r : Nat) : Option (Option String) :=
  let noDefault := if charAt t (skipWs t r) = some ';' then some (none : Option String) else none
  let q := skipWs t r
  if litAt t q [':', '='] then
    let q2 := skipWs t (q + 2)
    let nlen := wordRunAt t q2
    if nlen = 0 then noDefault
    else if charAt t (skipWs t (q2 + nlen)) = some ';' then
      some (some (sliceStr t q2 (q2 + nlen)))
    else noDefault
  else noDefault

/-- The literals part `\s*(.*?)\s*\)(?:\s*:=\s*(\w+))?\s*;` of the
enumeration pattern, starting at `a`: the lazy group ends before the first
`)` whose tail matches. -/
def enumLitsScan (t : List Char) (a k : Nat) : Nat → Option (List Char × Option String)
  | 0 => none
  | fuel + 1 =>
    match findLitFrom t [')'] k with
    | some m =>
      match enumAfterParen t (m + 1) with
      | some dv => some ((t.drop a).take (backWs t a m - a), dv)
      | none => enumLitsScan t a (m + 1) fuel
    | none => none

/-- Description alternatives of the enumeration pattern, greedy first. -/
def enumDescScan (t : List Char) (p4 k : Nat) :
    Nat → Option (Option String × List Char × Option String)
  | 0 => none
  | fuel + 1 =>
    match findLitFrom t ['*', ')'] k with
    | some m =>
      match enumLitsScan t (skipWs t (m + 2)) (skipWs t (m + 2)) (t.length + 1) with
      | some (lits, dv) => some (some (sliceStr t p4 m), lits, dv)
      | none => enumDescScan t p4 (m + 1) fuel
    | none => none

/-- One attempt, at `i`, of `re.compile(`
`r'(\w+)\s*:\s*\(\s*(?:\(\*(.*?)\*\))?\s*(.*?)\s*\)(?:\s*:=\s*(\w+))?\s*;', re.DOTALL)`. -/
def matchEnumAt (t : List Char) (i : Nat) :
    Option (String × Option String × List Char × Option String) :=
  let nlen := wordRunAt t i
  if nlen = 0 then none
  else
    let p := skipWs t (i + nlen)
    if charAt t p = some ':' then
      let p2 := skipWs t (p + 1)
      if charAt t p2 = some '(' then
        let p4 := skipWs t (p2 + 1)
        let name := sliceStr t i (i + nlen)
        let withDesc :=
          if litAt t p4 ['(', '*'] then enumDescScan t (p4 + 2) (p4 + 2) (t.length + 1)
          else none
        match withDesc with
        | some (desc, lits, dv) => some (name, desc, lits, dv)
        | none =>
          (enumLitsScan t p4 p4 (t.length + 1)).map (fun (lits, dv) =>
            (name, none, lits, dv))
      else none
    else none

/-- Model of `enum_pattern.search(cleaned_content)`. -/
def searchEnum (t : List Char) : Option (String × Option String × List Char × Option String) :=
  pyScan t.length (fun i => (matchEnumAt t i).map (fun r => (r, i + 1))) |>.head?

/-- One attempt, at `i`, of the literal pattern
`(\w+)(?:\s*:=\s*([\w#]+))?\s*(?:,)?(?:\s*\(\*(.*?)\*\))?(?:\s*\(\*(.*?)\*\))?(?:\s*\(\*(.*?)\*\))?`
(re.DOTALL): everything after the name is optional, so nothing downstream
can force backtracking. -/
def matchEnumLiteral (t : List Char) (i : Nat) : Option (EnumLiteral × Nat) :=
  let nlen := wordRunAt t i
  if nlen = 0 then none
  else
    let p := i + nlen
    let (v, p1) :=
      let q := skipWs t p
      if litAt t q [':', '='] then
        let q2 := skipWs t (q + 2)
        let vlen := runAt (fun c => wordChar c || c = '#') t q2
        if vlen = 0 then ((none : Option String), p)
        else (some (sliceStr t q2 (q2 + vlen)), q2 + vlen)
      else ((none : Option String), p)
    let p2 := skipWs t p1
    let p3 := if charAt t p2 = some ',' then p2 + 1 else p2
    let ((c1, c2, c3), pEnd) := veComments t p3
    some ({ name := sliceStr t i (i + nlen), value := v,
            comment1 := c1, comment2 := c2, comment3 := c3 }, pEnd)

/-- Model of `literal_pattern.finditer(literals_content)` with the loop body of
`EnumerationParser.parse`: skip empty names (never produced, the name group
is `\w+`), strip name, value and comments. -/
def pyFindEnumLiterals (t : List Char) : List EnumLiteral :=
  (pyScan t.length (fun i => matchEnumLiteral t i)).filterMap (fun l =>
    if (pyStrip l.name).data.isEmpty then none
    else
      some { name := pyStrip l.name, value := l.value.map pyStrip,
             comment1 := pyStripOrNone l.comment1, comment2 := pyStripOrNone l.comment2,
             comment3 := pyStripOrNone l.comment3 })

/-- Model of `EnumerationParser.parse` (src/parser.py lines 193-269): strip comment
lines, search the enumeration pattern (`ValueError` — `none` — if absent),
then collect the literal matches. -/
def enumParse (content : String) : Option EnumerationR :=
  match searchEnum (stripCommentLines content).data with
  | none => none
  | some (name, desc, lits, dv) =>
    some { name := name, literals := pyFindEnumLiterals lits,
           description := pyStripOrNone desc, default_value := dv }

/-! ## The per-definition loop of `TypeFileParser.parse_typ_file`
(src/parser.py lines 376-401) -/

/-- The structure attempt of one loop iteration: taken only when `'STRUCT'`
occurs in the uppercased definition. -/
def typDefStruct (d : String) : Option StructureR :=
  if strContains (pyUpper d) "STRUCT" then structParse d else none

/-- The enumeration attempt of one loop iteration: reached only when the
structure attempt did not succeed, and taken only when the definition
contains both `':'` and `'('`. -/
def typDefEnum (d : String) : Option EnumerationR :=
  if (typDefStruct d).isNone && d.data.contains ':' && d.data.contains '(' then enumParse d
  else none

/-- One iteration of the `for definition in definitions` loop of
`parse_typ_file`: append a parsed structure or (on failure) a parsed
enumeration; a definition failing both attempts is skipped with a logged
warning and does not touch the accumulators. -/
def typDefStep (acc : List StructureR × List EnumerationR) (d : String) :
    List StructureR × List EnumerationR :=
  match typDefStruct d with
  | some s => (acc.1 ++ [s], acc.2)
  | none =>
    match typDefEnum d with
    | some e => (acc.1, acc.2 ++ [e])
    | none => acc

/-- The `for definition in definitions` loop of `parse_typ_file`
(src/parser.py lines 380-401). -/
def processTypDefinitions (defs : List String) : List StructureR × List EnumerationR :=
  defs.foldl typDefStep ([], [])

/-! ## Library assembly (src/parser.py lines 270-327, 692-710; src/core.py
lines 124-136) -/

/-- One dependency record from the metadata descriptor. -/
structure DependencyR where
  object_name : Option String
  from_version : Option String
  to_version : Option String
deriving Repr, DecidableEq

/-- Model of `Library` (src/datatypes.py lines 224-255).  `files` holds the raw
`File` element texts, which Python allows to be `None`. -/
structure LibraryR where
  name : String
  description : Option String
  version : String
  type : Option String
  header_file_name : Option String
  file_version : Option String
  files : List (Option String)
  dependency_libraries : List DependencyR
  functions : List FunctionR
  function_blocks : List FunctionBlockR
  structures : List StructureR
  enumerations : List EnumerationR
  constants : List Variable
deriving Repr, DecidableEq

/-- One attempt, at `i`, of
`re.compile(r'(FUNCTION_BLOCK|FUNCTION).*?(END_FUNCTION_BLOCK|END_FUNCTION)', re.DOTALL)`
from `LibraryDeclarationFileParser.parse_blocks`: the alternations are tried
in source order, and the lazy middle stops at the first end keyword. -/
def matchFunBlock (t : List Char) (i : Nat) : Option (List Char × Nat) :=
  let kwLen :=
    if litAt t i "FUNCTION_BLOCK".data then some 14
    else if litAt t i "FUNCTION".data then some 8
    else none
  match kwLen with
  | none => none
  | some k =>
    match findLitFrom t "END_FUNCTION".data (i + k) with
    | some m =>
      let e := if litAt t m "END_FUNCTION_BLOCK".data then m + 18 else m + 12
      some ((t.drop i).take (e - i), e)
    | none => none

/-- Model of `parse_blocks` (src/parser.py lines 299-318): the `group(0)` text of
every match. -/
def parseBlocks (t : List Char) : List (List Char) :=
  pyScan t.length (fun i => matchFunBlock t i)

/-- Model of `LibraryDeclarationFileParser.parse_fun_file` (src/parser.py lines
279-297), with the file read abstracted to its folder name and content: the
library keeps its constructor defaults (version `"1.0.0"`, empty metadata and
declaration lists), gets the folder name as its name, and collects every
block containing `FUNCTION_BLOCK` through the function-block parser and every
other block containing `FUNCTION` through the function parser; a parser
exception (`none`) propagates. -/
def parseFunFile (folder : String) (content : String) : Option LibraryR :=
  ((parseBlocks content.data).foldlM
    (fun (acc : List FunctionBlockR × List FunctionR) blk =>
      let b := String.mk blk
      if strContains b "FUNCTION_BLOCK" then
        (fbParse b).map (fun fb => (acc.1 ++ [fb], acc.2))
      else if strContains b "FUNCTION" && !strContains b "FUNCTION_BLOCK" then
        (funcParse b).map (fun f => (acc.1, acc.2 ++ [f]))
      else some acc)
    ([], [])).map (fun (fbs, fns) =>
      { name := folder, description := none, version := "1.0.0", type := none,
        header_file_name := none, file_version := none, files := [],
        dependency_libraries := [], functions := fns, function_blocks := fbs,
        structures := [], enumerations := [], constants := [] })

/-- The dictionary `LibraryFileParser.parse_lby_file` returns on success
(src/parser.py lines 597-682).  The XML read itself is an external
collaborator; only the resulting fields matter to the metadata step. -/
structure MetadataR where
  name : String
  version : String
  type : Option String
  description : Option String
  header_file_name : Option String
  file_version : Option String
  files : List (Option String × Option String)
  dependencies : List DependencyR
deriving Repr, DecidableEq

/-- Model of `LibraryFileParser.update_library_object` (src/parser.py lines 692-710):
overwrite the metadata-controlled fields, keep the declaration lists.  (The
`if self.metadata` guard always holds after a successful parse, which is the
only way this function is reached in `core.process`.) -/
def updateLibraryObject (md : MetadataR) (lib : LibraryR) : LibraryR :=
  { lib with
    name := md.name, version := md.version, type := md.type,
    description := md.description, header_file_name := md.header_file_name,
    file_version := md.file_version, files := md.files.map (·.1),
    dependency_libraries := md.dependencies }

/-- The metadata step of `LibraryProcessor.process` (src/core.py lines
124-136): `parse_lby_file` followed by `update_library_object` inside a
`try/except` whose handler only logs — `none` models a raised exception
(missing or unparsable descriptor), in which case the library object is not
touched. -/
def metadataStep (parsed : Option MetadataR) (lib : LibraryR) : LibraryR :=
  match parsed with
  | none => lib
  | some md => updateLibraryObject md lib

/-! ## The constant-reference resolver
(`LibraryDeclarationToChm.link_constants_in_text`, src/libraryToChm.py
lines 331-392) -/

/-- Model of `html.escape(s, quote=True)`: `&`, `<`, `>`, `"` and the apostrophe are
replaced (the sequential `str.replace` calls of the stdlib implementation,
`&` first, are equivalent to this character map). -/
def htmlEscapeChar (c : Char) : List Char :=
  if c = '&' then "&amp;".data
  else if c = '<' then "&lt;".data
  else if c = '>' then "&gt;".data
  else if c = '"' then "&quot;".data
  else if c = Char.ofNat 39 then "&#x27;".data
  else [c]

/-- Model of `html.escape` on a string. -/
def htmlEscape (s : String) : String :=
  String.mk (s.data.map htmlEscapeChar).flatten

/-- The regex word boundary `\b` between an optional left character and an
optional right character (string edges count as non-word). -/
def atBoundary (left right : Option Char) : Bool :=
  (left.elim false wordChar) != (right.elim false wordChar)

/-- Model of `re.compile(r'\b' + re.escape(name) + r'\b')` matches `t` at `i`: the
escaped name literally, with word boundaries at both ends. -/
def matchBounded (name t : List Char) (i : Nat) : Bool :=
  litAt t i name
    && atBoundary (if i = 0 then none else charAt t (i - 1)) (charAt t i)
    && atBoundary (charAt t (i + name.length - 1)) (charAt t (i + name.length))

/-- Model of `re.finditer` for the word-bounded literal pattern: scan left to right,
emitting `(match.start(), match.end())` and resuming at the match end. -/
def findIterAux (name t : List Char) (i : Nat) : Nat → List (Nat × Nat)
  | 0 => []
  | fuel + 1 =>
    if i > t.length then []
    else if matchBounded name t i then
      (i, i + name.length) :: findIterAux name t (max (i + name.length) (i + 1)) fuel
    else findIterAux name t (i + 1) fuel

/-- All word-bounded occurrences of `name` in `t`, as `(start, end)` spans. -/
def findBoundedOccs (name t : List Char) : List (Nat × Nat) :=
  findIterAux name t 0 (t.length + 1)

/-- The overlap test of the inner loop: Python's
`not (end <= existing_start or start >= existing_end)` for the new span
`(s, e)` against the existing span `(s', e')`. -/
def spansOverlap (s e s' e' : Nat) : Bool :=
  !(decide (e ≤ s') || decide (s ≥ e'))

/-- A candidate span overlaps some accepted replacement. -/
def overlapsAny (acc : List (Nat × Nat × String)) (s e : Nat) : Bool :=
  acc.any (fun x => spansOverlap s e x.1 x.2.1)

/-- The `for match in re.finditer(...)` loop body: append each occurrence
that overlaps no already-accepted replacement. -/
def addOccs (occs : List (Nat × Nat)) (nm : String) (acc : List (Nat × Nat × String)) :
    List (Nat × Nat × String) :=
  match occs with
  | [] => acc
  | (s, e) :: rest =>
    if overlapsAny acc s e then addOccs rest nm acc
    else addOccs rest nm (acc ++ [(s, e, nm)])

/-- Stable insertion keeping longer strings first (ties keep insertion
order), mirroring Python's stable `sorted(..., key=len, reverse=True)`. -/
def insertDescLen (x : String) : List String → List String
  | [] => [x]
  | y :: ys => if x.length ≤ y.length then y :: insertDescLen x ys else x :: y :: ys

/-- Model of `sorted(names, key=len, reverse=True)` (stable). -/
def sortByDescLen (l : List String) : List String :=
  l.foldl (fun acc x => insertDescLen x acc) []

/-- The accepted replacements, in acceptance order: longest name first, then
leftmost occurrence, rejecting overlaps. -/
def linkReplacementsUnsorted (names : List String) (t : List Char) :
    List (Nat × Nat × String) :=
  (sortByDescLen names).foldl (fun acc nm => addOccs (findBoundedOccs nm.data t) nm acc) []

/-- Stable insertion by ascending start position, mirroring Python's stable
`replacements.sort(key=lambda x: x[0])`. -/
def insertByStart (x : Nat × Nat × String) :
    List (Nat × Nat × String) → List (Nat × Nat × String)
  | [] => [x]
  | y :: ys => if y.1 ≤ x.1 then y :: insertByStart x ys else x :: y :: ys

/-- Model of `replacements.sort(key=lambda x: x[0])` (stable). -/
def sortByStart (l : List (Nat × Nat × String)) : List (Nat × Nat × String) :=
  l.foldl (fun acc x => insertByStart x acc) []

/-- The accepted replacements sorted by position. -/
def linkReplacements (names : List String) (t : List Char) : List (Nat × Nat × String) :=
  sortByStart (linkReplacementsUnsorted names t)

/-- The emitted reference marker for one constant. -/
def constantLink (relative_path nm : String) : String :=
  "<a href=\"" ++ relative_path ++ "DataTypes/Constants/Constants.html#" ++ htmlEscape nm
    ++ "\">" ++ htmlEscape nm ++ "</a>"

/-- The output-building loop: escaped text between replacements, a link per
replacement, escaped tail. -/
def buildLinked (t : List Char) (reps : List (Nat × Nat × String))
    (relative_path : String) : String :=
  let (res, last) := reps.foldl
    (fun (acc : String × Nat) r =>
      (acc.1 ++ htmlEscape (sliceStr t acc.2 r.1) ++ constantLink relative_path r.2.2, r.2.1))
    ("", 0)
  res ++ htmlEscape (sliceStr t last t.length)

/-- Model of `LibraryDeclarationToChm.link_constants_in_text` (src/libraryToChm.py
lines 331-392), abstracted over the constant names
(`[const.name for const in self.library.constants]`): escape-only when the
constant list or the replacement list is empty, otherwise rebuild the text
with accepted occurrences replaced by reference markers. -/
def link_constants_in_text (constantNames : List String) (text relative_path : String) :
    String :=
  if constantNames.isEmpty then htmlEscape text
  else if (linkReplacements constantNames text.data).isEmpty then htmlEscape text
  else buildLinked text.data (linkReplacements constantNames text.data) relative_path

/-- Two accepted replacements occupy disjoint character spans. -/
def spanDisjoint (a b : Nat × Nat × String) : Prop :=
  a.2.1 ≤ b.1 ∨ b.2.1 ≤ a.1

/-! # Theorems -/

/-! ## Helper lemmas -/

theorem wsChar_of_wordChar {c : Char} (h : wordChar c = true) : wsChar c = false := by
  cases hw : wsChar c with
  | false => rfl
  | true =>
    exfalso
    unfold wsChar at hw
    simp only [Bool.or_eq_true, decide_eq_true_eq] at hw
    rcases hw with (((((h1 | h1) | h1) | h1) | h1) | h1) <;> subst h1 <;>
      exact absurd h (by decide)

theorem dropWhile_eq_self_of_none {p : Char → Bool} :
    ∀ {l : List Char}, (∀ c ∈ l, p c = false) → l.dropWhile p = l
  | [], _ => rfl
  | c :: l, h => by
    have hc : p c = false := h c (List.mem_cons_self c l)
    simp [List.dropWhile_cons, hc]

theorem pyStrip_of_wordChars {x : String} (h : ∀ c ∈ x.data, wordChar c = true) :
    pyStrip x = x := by
  unfold pyStrip
  have h1 : x.data.dropWhile wsChar = x.data :=
    dropWhile_eq_self_of_none (fun c hc => wsChar_of_wordChar (h c hc))
  rw [h1]
  have h2 : x.data.reverse.dropWhile wsChar = x.data.reverse :=
    dropWhile_eq_self_of_none (fun c hc => wsChar_of_wordChar (h c (List.mem_reverse.mp hc)))
  rw [h2, List.reverse_reverse]

/-! ## C1 — render / re-parse round trip -/

/-- C1 counterexample: for `ARRAY[0..10] OF REAL` the parsed value renders as
`REAL[0..10]`, and re-parsing that rendered form yields the Basic variant,
not a value equal to the first parse result — the claimed round trip fails on
the first of its three canonical strings. -/
theorem C1_round_trip_counterexample :
    reparseRendered "ARRAY[0..10] OF REAL" ≠ parse_type "ARRAY[0..10] OF REAL" := by
  decide

/-- C1 amended: the render / re-parse round trip holds for `STRING[80]` and
`UDINT(1..9)`, but for `ARRAY[0..10] OF REAL` the parser yields an Array
value that renders as `REAL[0..10]`, and re-parsing that rendered string
yields `Basic "REAL[0..10]"` instead of the original Array value. -/
theorem C1_round_trip_amended :
    reparseRendered "STRING[80]" = parse_type "STRING[80]" ∧
    reparseRendered "UDINT(1..9)" = parse_type "UDINT(1..9)" ∧
    parse_type "ARRAY[0..10] OF REAL" =
      some (BRType.array "REAL" [⟨BoundVal.int 0, BoundVal.int 10, false, false⟩]) ∧
    (parse_type "ARRAY[0..10] OF REAL").map renderType = some "REAL[0..10]" ∧
    reparseRendered "ARRAY[0..10] OF REAL" = some (BRType.basic "REAL[0..10]") := by
  refine ⟨by decide, by decide, by decide, by decide, by decide⟩

/-! ## C2 — type-expression classification order -/

/-- C2 counterexample: the range form `UDINT(1..9)` does not produce the
Range variant; it falls through to the Basic variant carrying the raw
string. -/
theorem C2_priority_counterexample :
    parse_type "UDINT(1..9)" = some (BRType.basic "UDINT(1..9)") ∧
    parse_type "UDINT(1..9)" ≠
      some (BRType.range "UDINT" (BoundVal.int 1) (BoundVal.int 9) false false) := by
  exact ⟨by decide, by decide⟩

/-- C2 amended: the parser tries the Array pattern, then the String pattern,
and otherwise returns the Basic variant carrying the input with its exact
spelling; it has no Range branch, so no input ever produces the Range
variant. -/
theorem C2_priority_amended :
    (∀ (s b : String) (lb ub : BoundVal) (cl cu : Bool),
        parse_type s ≠ some (BRType.range b lb ub cl cu)) ∧
    (∀ s : String, matchArrayType s.data = none → matchStringType s.data = none →
        parse_type s = some (BRType.basic s)) ∧
    (∃ base dims, parse_type "ARRAY[0..10] OF REAL" = some (BRType.array base dims)) ∧
    (∃ len c, parse_type "STRING[80]" = some (BRType.string len c)) := by
  refine ⟨?_, ?_, ⟨"REAL", [⟨BoundVal.int 0, BoundVal.int 10, false, false⟩], by decide⟩,
    ⟨BoundVal.int 80, false, by decide⟩⟩
  · intro s b lb ub cl cu h
    unfold parse_type at h
    cases hA : matchArrayType s.data with
    | some p =>
      rw [hA] at h
      rcases Option.map_eq_some'.mp h with ⟨ds, _, habs⟩
      exact BRType.noConfusion habs
    | none =>
      rw [hA] at h
      cases hS : matchStringType s.data with
      | some w => rw [hS] at h; exact BRType.noConfusion (Option.some.inj h)
      | none => rw [hS] at h; exact BRType.noConfusion (Option.some.inj h)
  · intro s h1 h2
    unfold parse_type
    rw [h1, h2]

/-- C2 witness: the amended theorem applied at `UDINT(1..9)`, whose Array and
String matches both fail concretely. -/
theorem C2_priority_amended_witness :
    parse_type "UDINT(1..9)" = some (BRType.basic "UDINT(1..9)") :=
  C2_priority_amended.2.1 "UDINT(1..9)" (by decide) (by decide)

/-! ## C7 — literal vs. symbolic classification of bound and length tokens -/

/-- C7: for array-dimension bounds, a purely-digit token is stored as an
integer with the constant (symbolic) flag `false`, and any other token is
stored as its stripped text with the flag `true` (for a bare identifier the
strip is the identity, by the last conjunct); the string-length token is
classified the same way. -/
theorem C7_bound_classification :
    (∀ (l u : String) (d : ArrayDimension),
        pySplit (l ++ ".." ++ u) ".." = [l, u] →
        parse_array_dimension (l ++ ".." ++ u) = some d →
        ((pyIsDigit l = true → d.lower_bound = BoundVal.int (strToNat l) ∧
            d.is_constant_lower = false) ∧
         (pyIsDigit l = false → d.lower_bound = BoundVal.str (pyStrip l) ∧
            d.is_constant_lower = true) ∧
         (pyIsDigit u = true → d.upper_bound = BoundVal.int (strToNat u) ∧
            d.is_constant_upper = false) ∧
         (pyIsDigit u = false → d.upper_bound = BoundVal.str (pyStrip u) ∧
            d.is_constant_upper = true))) ∧
    (∀ (s : String) (w : List Char), matchArrayType s.data = none →
        matchStringType s.data = some w →
        parse_type s = some (BRType.string
          (if pyIsDigit (pyStrip (String.mk w)) then
            BoundVal.int (strToNat (pyStrip (String.mk w)))
           else BoundVal.str (pyStrip (String.mk w)))
          (!pyIsDigit (pyStrip (String.mk w))))) ∧
    (∀ x : String, (∀ c ∈ x.data, wordChar c = true) → pyStrip x = x) := by
  refine ⟨?_, ?_, fun x h => pyStrip_of_wordChars h⟩
  · intro l u d hsplit hd
    unfold parse_array_dimension at hd
    rw [hsplit] at hd
    have hd' := Option.some.inj hd
    subst hd'
    refine ⟨fun h => ?_, fun h => ?_, fun h => ?_, fun h => ?_⟩ <;> simp [h]
  · intro s w h1 h2
    unfold parse_type
    rw [h1, h2]

/-- C7 witness: the theorem applied to the dimension `0..MAX` and the type
string `STRING[80]`, with every hypothesis discharged by computation. -/
theorem C7_bound_classification_witness :
    (parse_array_dimension "0..MAX" =
      some ⟨BoundVal.int 0, BoundVal.str "MAX", false, true⟩) ∧
    BoundVal.str (pyStrip "MAX") = BoundVal.str "MAX" ∧
    parse_type "STRING[80]" = some (BRType.string (BoundVal.int 80) false) := by
  refine ⟨by decide, ?_, ?_⟩
  · rw [C7_bound_classification.2.2 "MAX" (by decide)]
  · have h := C7_bound_classification.2.1 "STRING[80]" "80".data (by decide) (by decide)
    rw [h]
    decide

/-! ## C8 — one failed type definition does not block its siblings -/

theorem typDefEnum_none_of_struct {d : String} {s : StructureR}
    (h : typDefStruct d = some s) : typDefEnum d = none := by
  unfold typDefEnum
  rw [h]
  rfl

theorem foldl_typDefStep (defs : List String) :
    ∀ acc : List StructureR × List EnumerationR,
      defs.foldl typDefStep acc =
        (acc.1 ++ defs.filterMap typDefStruct, acc.2 ++ defs.filterMap typDefEnum) := by
  induction defs with
  | nil => intro acc; simp
  | cons d ds ih =>
    intro acc
    rw [List.foldl_cons, ih]
    cases hS : typDefStruct d with
    | some s =>
      have hE := typDefEnum_none_of_struct hS
      simp [typDefStep, hS, hE, List.filterMap_cons]
    | none =>
      cases hE : typDefEnum d with
      | some e => simp [typDefStep, hS, hE, List.filterMap_cons]
      | none => simp [typDefStep, hS, hE, List.filterMap_cons]

/-- C8: the per-definition loop of `parse_typ_file` is a pair of independent
filters — the structure list collects exactly the definitions whose structure
attempt succeeds and the enumeration list exactly those whose enumeration
attempt succeeds — so removing a definition that fails both attempts leaves
the collected results unchanged: one unit's parse failure never blocks its
siblings. -/
theorem C8_failed_definition_skipped :
    (∀ defs : List String,
        processTypDefinitions defs =
          (defs.filterMap typDefStruct, defs.filterMap typDefEnum)) ∧
    (∀ (pre post : List String) (bad : String),
        typDefStruct bad = none → typDefEnum bad = none →
        processTypDefinitions (pre ++ bad :: post) = processTypDefinitions (pre ++ post)) := by
  have hchar : ∀ defs : List String,
      processTypDefinitions defs =
        (defs.filterMap typDefStruct, defs.filterMap typDefEnum) := by
    intro defs
    unfold processTypDefinitions
    rw [foldl_typDefStep]
    simp
  refine ⟨hchar, ?_⟩
  intro pre post bad hS hE
  rw [hchar, hchar]
  simp [List.filterMap_append, List.filterMap_cons, hS, hE]

/-- C8 witness: with a structure definition missing its `END_STRUCT` between
two well-formed definitions, the loop collects exactly what it collects
without the broken unit. -/
theorem C8_failed_definition_skipped_witness :
    processTypDefinitions
        ["Good : STRUCT y : INT; END_STRUCT;", "Bad : STRUCT x : INT; (* no end *)",
         "E : (A, B);"] =
      processTypDefinitions ["Good : STRUCT y : INT; END_STRUCT;", "E : (A, B);"] :=
  C8_failed_definition_skipped.2 ["Good : STRUCT y : INT; END_STRUCT;"] ["E : (A, B);"]
    "Bad : STRUCT x : INT; (* no end *)" (by decide) (by decide)

/-! ## C9 — metadata failure keeps declaration-derived defaults -/

/-- C9: when the metadata descriptor cannot be parsed the metadata step
returns the library unchanged (the build continues), and the library built
from the declaration file carries the folder name as its name and the default
version `"1.0.0"`. -/
theorem C9_metadata_failure_defaults :
    (∀ lib : LibraryR, metadataStep none lib = lib) ∧
    (∀ (folder content : String) (lib : LibraryR),
        parseFunFile folder content = some lib →
        lib.name = folder ∧ lib.version = "1.0.0") := by
  refine ⟨fun lib => rfl, ?_⟩
  intro folder content lib h
  unfold parseFunFile at h
  rcases Option.map_eq_some'.mp h with ⟨⟨fbs, fns⟩, _, rfl⟩
  exact ⟨rfl, rfl⟩

/-- C9 witness: a concrete library is untouched by a failed metadata step,
and a one-function declaration file in folder `MyLib` yields name `MyLib`
and version `1.0.0`. -/
theorem C9_metadata_failure_defaults_witness :
    metadataStep none
        ⟨"L", none, "2.0.0", none, none, none, [], [], [], [], [], [], []⟩ =
      ⟨"L", none, "2.0.0", none, none, none, [], [], [], [], [], [], []⟩ ∧
    (parseFunFile "MyLib" "FUNCTION F : INT END_FUNCTION").map
        (fun l => (l.name, l.version)) = some ("MyLib", "1.0.0") := by
  refine ⟨C9_metadata_failure_defaults.1 _, ?_⟩
  cases hp : parseFunFile "MyLib" "FUNCTION F : INT END_FUNCTION" with
  | none => exact absurd hp (by decide)
  | some l =>
    have h := C9_metadata_failure_defaults.2 "MyLib" "FUNCTION F : INT END_FUNCTION" l hp
    simp [h.1, h.2]

/-! ## C6 — section-level RETAIN stamping -/

theorem mapM_option_forall {α β : Type} (P : β → Prop) :
    ∀ (l : List α) (f : α → Option β) (vs : List β),
      (∀ a v, f a = some v → P v) → l.mapM f = some vs → ∀ v ∈ vs, P v := by
  intro l
  induction l with
  | nil =>
    intro f vs _ h v hv
    rw [List.mapM_nil] at h
    cases Option.some.inj h
    simp at hv
  | cons a l ih =>
    intro f vs hf h v hv
    rw [List.mapM_cons] at h
    cases hfa : f a with
    | none => rw [hfa] at h; simp at h
    | some b =>
      rw [hfa] at h
      cases hl : l.mapM f with
      | none => rw [hl] at h; simp at h
      | some bs =>
        rw [hl] at h
        simp only [Option.bind_some, Option.pure_def] at h
        cases Option.some.inj h
        rcases List.mem_cons.mp hv with rfl | htail
        · exact hf a v hfa
        · exact ih f bs hf hl v htail

theorem parse_variable_section_retain {sec : List Char} {ret : Bool} {vs : List Variable}
    (h : parse_variable_section sec ret = some vs) : ∀ v ∈ vs, v.retain = ret := by
  refine mapM_option_forall _ (pyFindVarEntries sec) _ vs ?_ h
  intro e v hv
  rcases Option.map_eq_some'.mp hv with ⟨ty, _, rfl⟩
  rfl

theorem fb_foldlM_inout_retain :
    ∀ (secs : List (Option SectionKind × Bool × List Char)) (fb0 fb : FunctionBlockR),
      List.foldlM fbSectionStep fb0 secs = some fb →
      (∀ v ∈ fb0.var_in_out, v.retain = false) →
      ∀ v ∈ fb.var_in_out, v.retain = false := by
  intro secs
  induction secs with
  | nil =>
    intro fb0 fb h h0
    rw [List.foldlM_nil] at h
    cases Option.some.inj h
    exact h0
  | cons s ss ih =>
    intro fb0 fb h h0
    rw [List.foldlM_cons] at h
    cases hstep : fbSectionStep fb0 s with
    | none => rw [hstep] at h; exact Option.noConfusion h
    | some fb1 =>
      rw [hstep] at h
      refine ih fb1 fb h ?_
      obtain ⟨kind, ret, sc⟩ := s
      cases kind with
      | none =>
        rcases Option.map_eq_some'.mp hstep with ⟨vs, _, rfl⟩
        exact h0
      | some k =>
        cases k with
        | input =>
          rcases Option.map_eq_some'.mp hstep with ⟨vs, _, rfl⟩
          exact h0
        | output =>
          rcases Option.map_eq_some'.mp hstep with ⟨vs, _, rfl⟩
          exact h0
        | constant =>
          rcases Option.map_eq_some'.mp hstep with ⟨vs, _, rfl⟩
          exact h0
        | inOut =>
          rcases Option.map_eq_some'.mp hstep with ⟨vs, hvs, rfl⟩
          intro v hv
          rcases List.mem_append.mp hv with hl | hr
          · exact h0 v hl
          · exact parse_variable_section_retain hvs v hr

/-- C6 counterexample: a `VAR_IN_OUT RETAIN` section yields a variable with
`retain = false` — the claim's "every Variable produced from that section has
its retain flag set to true" fails for the in/out role. -/
theorem C6_retain_stamping_counterexample :
    (fbParse
        "FUNCTION_BLOCK FB2\nVAR_IN_OUT RETAIN\nx : INT;\nEND_VAR\nEND_FUNCTION_BLOCK").map
        (fun fb => fb.var_in_out.map (fun v => v.retain)) = some [false] ∧
    (fbParse
        "FUNCTION_BLOCK FB2\nVAR_IN_OUT RETAIN\nx : INT;\nEND_VAR\nEND_FUNCTION_BLOCK").map
        (fun fb => fb.var_in_out.map (fun v => v.retain)) ≠ some [true] := by
  exact ⟨by decide, by decide⟩

/-- C6 amended: `parse_variable_section` stamps its `is_retain` argument onto
every variable it produces, and the function-block parser passes the
section's RETAIN flag for the input, output, constant and plain sections —
but not for `VAR_IN_OUT` sections, whose variables always carry
`retain = false`. -/
theorem C6_retain_stamping_amended :
    (∀ (sec : List Char) (ret : Bool) (vs : List Variable),
        parse_variable_section sec ret = some vs → ∀ v ∈ vs, v.retain = ret) ∧
    (∀ (content : String) (fb : FunctionBlockR), fbParse content = some fb →
        ∀ v ∈ fb.var_in_out, v.retain = false) := by
  refine ⟨fun sec ret vs h => parse_variable_section_retain h, ?_⟩
  intro content fb h
  unfold fbParse at h
  cases hh : searchFBHeader content.data with
  | none => rw [hh] at h; cases h
  | some nd =>
    rw [hh] at h
    exact fb_foldlM_inout_retain _ _ _ h (by intro v hv; simp at hv)

/-- C6 witness: the amended theorem applied to the concrete section
`x : INT;` with the RETAIN flag set. -/
theorem C6_retain_stamping_amended_witness :
    parse_variable_section "x : INT;".data true =
      some [⟨"x", BRType.basic "INT", false, none, none, none, none, none, true⟩] ∧
    (⟨"x", BRType.basic "INT", false, none, none, none, none, none, true⟩ : Variable).retain
      = true := by
  refine ⟨by decide, ?_⟩
  exact C6_retain_stamping_amended.1 "x : INT;".data true
    [⟨"x", BRType.basic "INT", false, none, none, none, none, none, true⟩] (by decide)
    _ (List.mem_singleton.mpr rfl)

/-! ## C10 — sections with swallowed suffixes go to the local list -/

theorem varSectionSuffixF_kind (t : List Char) (j : Nat) :
    (varSectionSuffixF t j).1 = some SectionKind.input ∨
    (varSectionSuffixF t j).1 = some SectionKind.inOut ∨
    (varSectionSuffixF t j).1 = none := by
  unfold varSectionSuffixF
  split
  · exact Or.inl rfl
  · split
    · exact Or.inr (Or.inl rfl)
    · exact Or.inr (Or.inr rfl)

theorem matchVarSectionF_kind {t : List Char} {i : Nat}
    {r : (Option SectionKind × List Char) × Nat} (h : matchVarSectionF t i = some r) :
    r.1.1 = some SectionKind.input ∨ r.1.1 = some SectionKind.inOut ∨ r.1.1 = none := by
  unfold matchVarSectionF at h
  split at h
  · split at h
    · have hr := (Option.some.inj h).symm
      have : r.1.1 = (varSectionSuffixF t (i + 3)).1 := by rw [hr]
      rw [this]
      exact varSectionSuffixF_kind t (i + 3)
    · exact Option.noConfusion h
  · exact Option.noConfusion h

theorem pyScanAux_mem {α : Type} (n : Nat) (step : Nat → Option (α × Nat)) :
    ∀ (fuel i : Nat) (a : α), a ∈ pyScanAux n step i fuel →
      ∃ i' j, step i' = some (a, j) := by
  intro fuel
  induction fuel with
  | zero => intro i a h; simp [pyScanAux] at h
  | succ f ih =>
    intro i a h
    unfold pyScanAux at h
    split at h
    · simp at h
    · cases hstep : step i with
      | none => rw [hstep] at h; exact ih _ a h
      | some bj =>
        rw [hstep] at h
        rcases List.mem_cons.mp h with rfl | htail
        · exact ⟨i, bj.2, by rw [hstep]⟩
        · exact ih _ a htail

theorem func_foldlM_var :
    ∀ (secs : List (Option SectionKind × List Char)),
      (∀ s ∈ secs, s.1 = some SectionKind.input ∨ s.1 = some SectionKind.inOut ∨ s.1 = none) →
      ∀ (f0 f : FunctionR) (gs : List (List Variable)),
        List.foldlM funcSectionStep f0 secs = some f →
        (secs.filterMap (fun s => if s.1 = none then some s.2 else none)).mapM
            (fun sc => parse_variable_section sc false) = some gs →
        f.var = f0.var ++ gs.flatten := by
  intro secs
  induction secs with
  | nil =>
    intro _ f0 f gs h hm
    rw [List.foldlM_nil] at h
    cases Option.some.inj h
    rw [List.filterMap_nil, List.mapM_nil] at hm
    cases Option.some.inj hm
    simp
  | cons s ss ih =>
    intro hkinds f0 f gs h hm
    obtain ⟨kind, sc⟩ := s
    have hks : ∀ x ∈ ss,
        x.1 = some SectionKind.input ∨ x.1 = some SectionKind.inOut ∨ x.1 = none :=
      fun x hx => hkinds x (List.mem_cons_of_mem _ hx)
    rw [List.foldlM_cons] at h
    cases kind with
    | some k =>
      cases k with
      | output =>
        rcases hkinds (some SectionKind.output, sc) (List.mem_cons_self _ _) with hk | hk | hk <;>
          simp at hk
      | constant =>
        rcases hkinds (some SectionKind.constant, sc) (List.mem_cons_self _ _) with hk | hk | hk <;>
          simp at hk
      | input =>
        have hstep : funcSectionStep f0 (some SectionKind.input, sc) =
            (parse_variable_section sc false).map (fun vs =>
              { f0 with var_input := f0.var_input ++ vs }) := rfl
        rw [hstep] at h
        cases hvs : parse_variable_section sc false with
        | none => rw [hvs] at h; exact Option.noConfusion h
        | some vs =>
          rw [hvs] at h
          rw [List.filterMap_cons] at hm
          simp only [reduceIte] at hm
          exact ih hks { f0 with var_input := f0.var_input ++ vs } f gs h hm
      | inOut =>
        have hstep : funcSectionStep f0 (some SectionKind.inOut, sc) =
            (parse_variable_section sc false).map (fun vs =>
              { f0 with var_in_out := f0.var_in_out ++ vs }) := rfl
        rw [hstep] at h
        cases hvs : parse_variable_section sc false with
        | none => rw [hvs] at h; exact Option.noConfusion h
        | some vs =>
          rw [hvs] at h
          rw [List.filterMap_cons] at hm
          simp only [reduceIte] at hm
          exact ih hks { f0 with var_in_out := f0.var_in_out ++ vs } f gs h hm
    | none =>
      have hstep : funcSectionStep f0 (none, sc) =
          (parse_variable_section sc false).map (fun vs =>
            { f0 with var := f0.var ++ vs }) := rfl
      rw [hstep] at h
      cases hvs : parse_variable_section sc false with
      | none => rw [hvs] at h; exact Option.noConfusion h
      | some vs =>
        rw [hvs] at h
        rw [List.filterMap_cons] at hm
        simp only [reduceIte] at hm
        rw [List.mapM_cons, hvs] at hm
        cases hrest : (ss.filterMap (fun s => if s.1 = none then some s.2 else none)).mapM
            (fun sc => parse_variable_section sc false) with
        | none => rw [hrest] at hm; simp at hm
        | some gs' =>
          rw [hrest] at hm
          simp only [Option.bind_some, Option.pure_def] at hm
          cases Option.some.inj hm
          have hrec := ih hks { f0 with var := f0.var ++ vs } f gs' h hrest
          simp only [hrec, List.flatten_cons, List.append_assoc]

/-- C10: every `VAR` section of a function declaration whose captured suffix
is neither `_INPUT` nor `_IN_OUT` is routed into the function's local `var`
list — the section matcher can only capture `_INPUT`, `_IN_OUT` or nothing,
so `VAR_OUTPUT` and `VAR CONSTANT` sections (their suffix text swallowed into
the section body) land there without an error; concretely, a function with
one `VAR_OUTPUT` and one `VAR CONSTANT` section parses successfully, both
sections match with no captured suffix, and both entries end up in `var`. -/
theorem C10_nonstandard_sections_to_local :
    (∀ (t : List Char) (s : Option SectionKind × List Char), s ∈ pyFindVarSectionsF t →
        s.1 = some SectionKind.input ∨ s.1 = some SectionKind.inOut ∨ s.1 = none) ∧
    (∀ (content : String) (f : FunctionR) (gs : List (List Variable)),
        funcParse content = some f →
        ((pyFindVarSectionsF content.data).filterMap
            (fun s => if s.1 = none then some s.2 else none)).mapM
          (fun sc => parse_variable_section sc false) = some gs →
        f.var = gs.flatten) ∧
    (funcParse
        "FUNCTION F : INT\nVAR_OUTPUT\ny : INT;\nEND_VAR\nVAR CONSTANT\nc : INT := 5;\nEND_VAR\nEND_FUNCTION" =
      some { name := "F", return_type := "INT", description := "", var_input := [],
             var_in_out := [],
             var := [⟨"y", BRType.basic "INT", false, none, none, none, none, none, false⟩,
                     ⟨"c", BRType.basic "INT", false, none, none, none, none, some "5", false⟩] }) ∧
    ((pyFindVarSectionsF
        "FUNCTION F : INT\nVAR_OUTPUT\ny : INT;\nEND_VAR\nVAR CONSTANT\nc : INT := 5;\nEND_VAR\nEND_FUNCTION".data).map
        (fun s => s.1) = [none, none]) := by
  have hkinds : ∀ (t : List Char) (s : Option SectionKind × List Char),
      s ∈ pyFindVarSectionsF t →
      s.1 = some SectionKind.input ∨ s.1 = some SectionKind.inOut ∨ s.1 = none := by
    intro t s hs
    rcases pyScanAux_mem _ _ _ _ _ hs with ⟨i', j, hij⟩
    exact matchVarSectionF_kind (r := (s, j)) hij
  refine ⟨hkinds, ?_, by decide, by decide⟩
  intro content f gs h hm
  unfold funcParse at h
  cases hh : searchFuncHeader content.data with
  | none => rw [hh] at h; exact Option.noConfusion h
  | some nrd =>
    rw [hh] at h
    have := func_foldlM_var (pyFindVarSectionsF content.data)
      (fun s hs => hkinds content.data s hs) _ f gs h hm
    simpa using this

/-- C10 witness: the routing theorem applied to the concrete function with a
`VAR_OUTPUT` and a `VAR CONSTANT` section. -/
theorem C10_nonstandard_sections_to_local_witness :
    ({ name := "F", return_type := "INT", description := "", var_input := [],
       var_in_out := [],
       var := [⟨"y", BRType.basic "INT", false, none, none, none, none, none, false⟩,
               ⟨"c", BRType.basic "INT", false, none, none, none, none, some "5", false⟩] }
      : FunctionR).var =
      ([[⟨"y", BRType.basic "INT", false, none, none, none, none, none, false⟩],
        [⟨"c", BRType.basic "INT", false, none, none, none, none, some "5", false⟩]]
        : List (List Variable)).flatten :=
  C10_nonstandard_sections_to_local.2.1
    "FUNCTION F : INT\nVAR_OUTPUT\ny : INT;\nEND_VAR\nVAR CONSTANT\nc : INT := 5;\nEND_VAR\nEND_FUNCTION"
    _ _ (by decide) (by decide)

/-! ## Resolver lemmas (for C3, C4, C5) -/

theorem spanDisjoint_symm : ∀ a b : Nat × Nat × String, spanDisjoint a b → spanDisjoint b a :=
  fun _ _ h => h.elim Or.inr Or.inl

theorem addOccs_subset :
    ∀ (occs : List (Nat × Nat)) (nm : String) (acc : List (Nat × Nat × String)) (x),
      x ∈ acc → x ∈ addOccs occs nm acc := by
  intro occs
  induction occs with
  | nil => intro nm acc x hx; exact hx
  | cons o rest ih =>
    intro nm acc x hx
    obtain ⟨s, e⟩ := o
    show x ∈ (if overlapsAny acc s e then addOccs rest nm acc
              else addOccs rest nm (acc ++ [(s, e, nm)]))
    split
    · exact ih nm acc x hx
    · exact ih nm (acc ++ [(s, e, nm)]) x (List.mem_append_left _ hx)

theorem spanDisjoint_of_not_overlap {s e : Nat} {a : Nat × Nat × String} {nm : String}
    (h : spansOverlap s e a.1 a.2.1 = false) : spanDisjoint a (s, e, nm) := by
  unfold spansOverlap at h
  have hb : (decide (e ≤ a.1) || decide (s ≥ a.2.1)) = true := by
    cases hv : (decide (e ≤ a.1) || decide (s ≥ a.2.1)) with
    | true => rfl
    | false => rw [hv] at h; exact absurd h (by decide)
  rcases (Bool.or_eq_true _ _).mp hb with h1 | h1
  · exact Or.inr (of_decide_eq_true h1)
  · exact Or.inl (of_decide_eq_true h1)

theorem overlapsAny_eq_false_iff {acc : List (Nat × Nat × String)} {s e : Nat} :
    overlapsAny acc s e = false ↔ ∀ x ∈ acc, spansOverlap s e x.1 x.2.1 = false := by
  unfold overlapsAny
  rw [List.any_eq_false]
  constructor
  · intro h x hx
    have := h x hx
    cases hv : spansOverlap s e x.1 x.2.1 with
    | true => exact absurd hv this
    | false => rfl
  · intro h x hx
    rw [h x hx]
    exact Bool.false_ne_true

theorem addOccs_pairwise :
    ∀ (occs : List (Nat × Nat)) (nm : String) (acc : List (Nat × Nat × String)),
      acc.Pairwise spanDisjoint → (addOccs occs nm acc).Pairwise spanDisjoint := by
  intro occs
  induction occs with
  | nil => intro nm acc h; exact h
  | cons o rest ih =>
    intro nm acc h
    obtain ⟨s, e⟩ := o
    show ((if overlapsAny acc s e then addOccs rest nm acc
           else addOccs rest nm (acc ++ [(s, e, nm)]))).Pairwise spanDisjoint
    split
    · exact ih nm acc h
    · rename_i hno
      have hno' : overlapsAny acc s e = false := Bool.not_eq_true _ ▸ Bool.of_not_eq_true hno
      refine ih nm _ (List.pairwise_append.mpr ⟨h, List.pairwise_singleton _ _, ?_⟩)
      intro a ha b hb
      rw [List.mem_singleton] at hb
      subst hb
      exact spanDisjoint_of_not_overlap (overlapsAny_eq_false_iff.mp hno' a ha)

theorem foldl_addOccs_pairwise (names : List String) :
    ∀ (t : List Char) (acc : List (Nat × Nat × String)), acc.Pairwise spanDisjoint →
      (names.foldl (fun acc nm => addOccs (findBoundedOccs nm.data t) nm acc) acc).Pairwise
        spanDisjoint := by
  induction names with
  | nil => intro t acc h; exact h
  | cons nm names ih =>
    intro t acc h
    rw [List.foldl_cons]
    exact ih t _ (addOccs_pairwise _ _ _ h)

theorem linkReplacementsUnsorted_pairwise (names : List String) (t : List Char) :
    (linkReplacementsUnsorted names t).Pairwise spanDisjoint :=
  foldl_addOccs_pairwise (sortByDescLen names) t [] (List.Pairwise.nil)

theorem insertByStart_perm (x : Nat × Nat × String) :
    ∀ l : List (Nat × Nat × String), (insertByStart x l).Perm (x :: l) := by
  intro l
  induction l with
  | nil => exact List.Perm.refl _
  | cons y ys ih =>
    show (if y.1 ≤ x.1 then y :: insertByStart x ys else x :: y :: ys).Perm (x :: y :: ys)
    split
    · exact ((ih.cons y).trans (List.Perm.swap x y ys))
    · exact List.Perm.refl _

theorem foldl_insertByStart_perm :
    ∀ (l acc : List (Nat × Nat × String)),
      (l.foldl (fun acc x => insertByStart x acc) acc).Perm (acc ++ l) := by
  intro l
  induction l with
  | nil => intro acc; simp
  | cons x xs ih =>
    intro acc
    rw [List.foldl_cons]
    refine (ih (insertByStart x acc)).trans ?_
    refine (List.Perm.append_right xs (insertByStart_perm x acc)).trans ?_
    exact List.perm_middle.symm

theorem sortByStart_perm (l : List (Nat × Nat × String)) : (sortByStart l).Perm l := by
  have := foldl_insertByStart_perm l []
  simpa [sortByStart] using this

theorem linkReplacements_pairwise (names : List String) (t : List Char) :
    (linkReplacements names t).Pairwise spanDisjoint := by
  have hsym : Symmetric spanDisjoint := fun _ _ h => h.elim Or.inr Or.inl
  unfold linkReplacements
  exact ((sortByStart_perm _).pairwise_iff (fun h => hsym h)).mpr
    (linkReplacementsUnsorted_pairwise names t)

theorem findIterAux_bounds (name t : List Char) :
    ∀ (fuel i : Nat) (p : Nat × Nat), p ∈ findIterAux name t i fuel →
      i ≤ p.1 ∧ p.2 = p.1 + name.length := by
  intro fuel
  induction fuel with
  | zero => intro i p h; simp [findIterAux] at h
  | succ f ih =>
    intro i p h
    unfold findIterAux at h
    split at h
    · simp at h
    · split at h
      · rcases List.mem_cons.mp h with rfl | htail
        · exact ⟨Nat.le_refl _, rfl⟩
        · have := ih _ p htail
          exact ⟨Nat.le_trans (Nat.le_trans (Nat.le_succ i) (Nat.le_max_right _ _)) this.1,
            this.2⟩
      · have := ih _ p h
        exact ⟨Nat.le_trans (Nat.le_succ i) this.1, this.2⟩

theorem findIterAux_separated (name t : List Char) :
    ∀ (fuel i : Nat),
      (findIterAux name t i fuel).Pairwise (fun a b => a.2 ≤ b.1) := by
  intro fuel
  induction fuel with
  | zero => intro i; simp [findIterAux]
  | succ f ih =>
    intro i
    unfold findIterAux
    split
    · exact List.Pairwise.nil
    · split
      · refine List.Pairwise.cons ?_ (ih _)
        intro b hb
        have hby := (findIterAux_bounds name t f _ b hb).1
        exact Nat.le_trans (Nat.le_max_left _ _) hby
      · exact ih _

theorem addOccs_all_mem :
    ∀ (occs : List (Nat × Nat)) (nm : String) (acc : List (Nat × Nat × String)) (m : Nat),
      occs.Pairwise (fun a b => a.2 ≤ b.1) →
      (∀ o ∈ occs, o.1 ≤ o.2) →
      (∀ x ∈ acc, x.2.1 ≤ m) →
      (∀ o ∈ occs, m ≤ o.1) →
      ∀ o ∈ occs, (o.1, o.2, nm) ∈ addOccs occs nm acc := by
  intro occs
  induction occs with
  | nil => intro nm acc m _ _ _ _ o ho; simp at ho
  | cons hd rest ih =>
    intro nm acc m hsep hwf hacc hm o ho
    obtain ⟨s, e⟩ := hd
    have hno : overlapsAny acc s e = false := by
      rw [overlapsAny_eq_false_iff]
      intro x hx
      have h1 : x.2.1 ≤ s :=
        Nat.le_trans (hacc x hx) (hm (s, e) (List.mem_cons_self _ _))
      unfold spansOverlap
      have : decide (s ≥ x.2.1) = true := decide_eq_true h1
      rw [this, Bool.or_true]
      rfl
    have hstep : addOccs ((s, e) :: rest) nm acc =
        addOccs rest nm (acc ++ [(s, e, nm)]) := by
      show (if overlapsAny acc s e then addOccs rest nm acc
            else addOccs rest nm (acc ++ [(s, e, nm)])) = _
      rw [hno]
      rfl
    rw [hstep]
    have hse : s ≤ e := hwf (s, e) (List.mem_cons_self _ _)
    have hsephd : ∀ b ∈ rest, e ≤ b.1 := fun b hb => List.rel_of_pairwise_cons hsep hb
    rcases List.mem_cons.mp ho with rfl | hor
    · exact addOccs_subset _ _ _ _ (List.mem_append_right _ (List.mem_singleton.mpr rfl))
    · refine ih nm (acc ++ [(s, e, nm)]) e (List.Pairwise.of_cons hsep)
        (fun o' ho' => hwf o' (List.mem_cons_of_mem _ ho')) ?_ hsephd o hor
      intro x hx
      rcases List.mem_append.mp hx with hl | hr
      · exact Nat.le_trans (hacc x hl)
          (Nat.le_trans (hm (s, e) (List.mem_cons_self _ _)) hse)
      · rw [List.mem_singleton] at hr
        subst hr
        exact Nat.le_refl _

/-! ## C5 — accepted spans are pairwise disjoint -/

/-- C5: for every constant-name list and every input text, the replacement
spans the resolver accepts are pairwise disjoint — an occurrence overlapping
an already-accepted occurrence is rejected, so no two accepted spans share a
character position. -/
theorem C5_accepted_spans_disjoint (constantNames : List String) (text : String) :
    (linkReplacements constantNames text.data).Pairwise spanDisjoint :=
  linkReplacements_pairwise constantNames text.data

/-! ## C3 — longest-match priority for prefix-related constant names -/

/-- C3: with constants `X` and `XLONG`, the candidate names are tried in
descending length order (`XLONG` before `X`), every word-bounded occurrence
of `XLONG` in any text is accepted as a single `XLONG` reference, and every
accepted `X` reference is disjoint from that occurrence — the occurrence is
never resolved as the shorter prefix plus leftover text. -/
theorem C3_longest_match_priority :
    sortByDescLen ["X", "XLONG"] = ["XLONG", "X"] ∧
    (∀ (text : String) (s e : Nat),
      (s, e) ∈ findBoundedOccs "XLONG".data text.data →
      (s, e, "XLONG") ∈ linkReplacements ["X", "XLONG"] text.data ∧
      ∀ s' e', (s', e', "X") ∈ linkReplacements ["X", "XLONG"] text.data →
        e' ≤ s ∨ e ≤ s') := by
  refine ⟨by decide, ?_⟩
  intro text s e hocc
  have hsorted : sortByDescLen ["X", "XLONG"] = ["XLONG", "X"] := by decide
  have hfold : linkReplacementsUnsorted ["X", "XLONG"] text.data =
      addOccs (findBoundedOccs "X".data text.data) "X"
        (addOccs (findBoundedOccs "XLONG".data text.data) "XLONG" []) := by
    unfold linkReplacementsUnsorted
    rw [hsorted]
    rfl
  have h1 : (s, e, "XLONG") ∈
      addOccs (findBoundedOccs "XLONG".data text.data) "XLONG" [] := by
    have hall := addOccs_all_mem (findBoundedOccs "XLONG".data text.data) "XLONG" [] 0
      (findIterAux_separated _ _ _ _)
      (fun o ho => by
        have := (findIterAux_bounds "XLONG".data text.data _ _ o ho).2
        rw [this]
        exact Nat.le_add_right _ _)
      (fun x hx => by simp at hx)
      (fun o _ => Nat.zero_le _)
    exact hall (s, e) hocc
  have h2 : (s, e, "XLONG") ∈ linkReplacementsUnsorted ["X", "XLONG"] text.data := by
    rw [hfold]
    exact addOccs_subset _ _ _ _ h1
  have hmem : (s, e, "XLONG") ∈ linkReplacements ["X", "XLONG"] text.data :=
    (sortByStart_perm _).mem_iff.mpr h2
  refine ⟨hmem, ?_⟩
  intro s' e' hX
  have hpair := linkReplacements_pairwise ["X", "XLONG"] text.data
  have hne : ((s', e', "X") : Nat × Nat × String) ≠ (s, e, "XLONG") := by
    intro hq
    have : "X" = "XLONG" := congrArg (fun p => p.2.2) hq
    exact absurd this (by decide)
  have hsym : Symmetric spanDisjoint := fun _ _ h => h.elim Or.inr Or.inl
  exact hpair.forall hsym hX hmem hne

/-- C3 witness: the theorem applied to the text `A XLONG B`, whose only
word-bounded `XLONG` occurrence spans positions 2 to 7. -/
theorem C3_longest_match_priority_witness :
    ((2, 7, "XLONG") : Nat × Nat × String) ∈
      linkReplacements ["X", "XLONG"] "A XLONG B".data :=
  (C3_longest_match_priority.2 "A XLONG B" 2 7 (by decide)).1

/-! ## C4 — resolving is not idempotent -/

/-- C4 counterexample: resolving the resolver's own output again is not a
no-op — with the single constant `X` and input `X`, the second pass re-marks
the name inside the emitted reference marker and re-escapes the markup. -/
theorem C4_idempotence_counterexample :
    link_constants_in_text ["X"] (link_constants_in_text ["X"] "X" "../") "../" ≠
      link_constants_in_text ["X"] "X" "../" := by
  decide

/-- C4 amended: resolving already-resolved text a second time is not in
general a no-op (see the counterexample: the second pass re-marks names
inside the emitted reference markers and re-escapes the markup).  It is a
no-op whenever the first resolution returned its input unchanged — in
particular when no occurrence was accepted and the text contains no
HTML-escapable character. -/
theorem C4_idempotence_amended :
    ∀ (constantNames : List String) (text relative_path : String),
      linkReplacements constantNames text.data = [] →
      htmlEscape text = text →
      link_constants_in_text constantNames text relative_path = text ∧
      link_constants_in_text constantNames
          (link_constants_in_text constantNames text relative_path) relative_path =
        link_constants_in_text constantNames text relative_path := by
  intro names text rel h1 h2
  have hfix : link_constants_in_text names text rel = text := by
    unfold link_constants_in_text
    rw [h1]
    simp [h2]
  refine ⟨hfix, ?_⟩
  rw [hfix]
  exact hfix

/-- C4 witness: the amended theorem applied to constant list `["X"]` and text
`hello`, which has no occurrence of `X` and no escapable character. -/
theorem C4_idempotence_amended_witness :
    link_constants_in_text ["X"] "hello" "../" = "hello" ∧
    link_constants_in_text ["X"] (link_constants_in_text ["X"] "hello" "../") "../" =
      link_constants_in_text ["X"] "hello" "../" :=
  C4_idempotence_amended ["X"] "hello" "../" (by decide) (by decide)
